import Mathlib

/-
Shallow embedding of the asyncio supervision primitives of frequenz-core
(`frequenz/core/asyncio/_task_group.py`, `_service.py`, `_util.py`).

The host scheduler is abstracted away: a task handle carries its eventual
outcome (success, cancellation, or an error identified by a numeric code),
and the suspending operations (`_wait`, `stop`, `as_completed`) are modelled
as pure functions of the group state together with those eventual outcomes.
The consumer of `as_completed` is modelled as a boolean-valued function
saying whether the consumer's handling code for a yielded handle completes
normally (`true`) or raises (`false`).
-/

namespace FrequenzCore

/-- Exceptions raised by tasks, as the code distinguishes them:
`asyncio.CancelledError` versus any other `BaseException` (identified here
by a numeric code standing for the exception instance's identity). -/
inductive Exc where
  | cancelled
  | error (code : Nat)
deriving DecidableEq

/-- Whether an exception is `asyncio.CancelledError` (the predicate used by
`BaseExceptionGroup.split(asyncio.CancelledError)` in `stop`). -/
def Exc.isCancelled : Exc → Bool
  | .cancelled => true
  | .error _ => false

/-- An `asyncio.Task` handle: identity, final registered name, whether it is
already done, and its eventual outcome once it completes (`none` = returns
normally, `some e` = awaiting it raises `e`). -/
structure Handle where
  hid : Nat
  name : String
  done : Bool
  outcome : Option Exc
deriving DecidableEq

/-- State of a `PersistentTaskGroup` (`_task_group.py`): the dynamic type
name (`type(self).__name__`), the unique id, and the two disjoint task sets
`_running` and `_waiting_ack`.  Python's `set` is modelled as a list whose
head is what `next(iter(s))` returns; the done-callbacks installed by
`create_task` move a completing task from `_running` to `_waiting_ack`. -/
structure PersistentTaskGroup where
  typeName : String
  unique_id : String
  running : List Handle
  waiting_ack : List Handle
deriving DecidableEq

/-- `PersistentTaskGroup.__str__`: `f"{type(self).__name__}:{self._unique_id}"`. -/
def PersistentTaskGroup.str (g : PersistentTaskGroup) : String :=
  g.typeName ++ ":" ++ g.unique_id

/-- `hex(id(x))[2:]`: the hexadecimal digits of an object id without the
`0x` prefix, the fallback used for default unique ids and task names. -/
def pyHexId (n : Nat) : String :=
  String.mk (Nat.toDigits 16 n)

/-- The task name computed by `PersistentTaskGroup.create_task` and passed
to the task creator: `if not name: name = hex(id(coro))[2:]` followed by
`name=f"{self}:{name}"`.  `none` models Python `None`; Python's `not name`
is true exactly for `None` and the empty string. -/
def PersistentTaskGroup.createTaskName
    (g : PersistentTaskGroup) (name : Option String) (coroId : Nat) : String :=
  let n := match name with
    | none => pyHexId coroId
    | some s => if s = "" then pyHexId coroId else s
  g.str ++ ":" ++ n

/-- The loop body of `PersistentTaskGroup.cancel`: `for task in
self._running: task.cancel(msg)`.  Each emitted pair is one cancellation
signal `(task, msg)` delivered to the scheduler. -/
def cancelTasks (msg : Option String) : List Handle → List (Handle × Option String)
  | [] => []
  | t :: rest => (t, msg) :: cancelTasks msg rest

/-- `PersistentTaskGroup.cancel(msg)`: sends a cancellation signal to every
running task.  `Task.cancel` only marks the target task; the group's own
sets are not modified, so the state component is returned unchanged and the
signals sent are returned as data. -/
def PersistentTaskGroup.cancel (g : PersistentTaskGroup) (msg : Option String) :
    PersistentTaskGroup × List (Handle × Option String) :=
  (g, cancelTasks msg g.running)

/-- The drain loop of `PersistentTaskGroup.as_completed`, acting on the
`_waiting_ack` set:

```
while task := next(iter(self._waiting_ack), None):
    yield task
    self._waiting_ack.discard(task)
```

`cons t = true` means the consumer's handling code for the yielded task `t`
runs to completion, so the generator is resumed and the `discard` line
executes; `cons t = false` means the consumer raises while handling `t`, the
generator is closed at the `yield` and the `discard` line never runs.
Returns (tasks yielded in order, remaining `_waiting_ack`). -/
def drainAck (cons : Handle → Bool) : List Handle → List Handle × List Handle
  | [] => ([], [])
  | t :: rest =>
    if cons t then
      (t :: (drainAck cons rest).1, (drainAck cons rest).2)
    else
      ([t], t :: rest)

/-- Events observable while the `as_completed` drain loop runs, in program
order: a task is yielded, the consumer's handling code runs (completing
normally or raising), and the task is discarded from `_waiting_ack`. -/
inductive Ev where
  | yielded (t : Handle)
  | consumed (t : Handle)
  | consumerRaised (t : Handle)
  | acked (t : Handle)
deriving DecidableEq

/-- Event trace of the `as_completed` drain loop (same source loop as
`drainAck`): the `yield` suspends the generator, the consumer's code runs,
and only when the generator is resumed does `discard` execute.  If the
consumer raises, the generator is closed at the `yield` point and no
`acked` event ever happens for that task. -/
def drainTrace (cons : Handle → Bool) : List Handle → List Ev
  | [] => []
  | t :: rest =>
    if cons t then
      Ev.yielded t :: Ev.consumed t :: Ev.acked t :: drainTrace cons rest
    else
      [Ev.yielded t, Ev.consumerRaised t]

/-- All tasks the aggregate wait will drain: `_waiting_ack` is drained
first, then the still-running tasks as they complete. -/
def PersistentTaskGroup.allTasks (g : PersistentTaskGroup) : List Handle :=
  g.waiting_ack ++ g.running

/-- The `exceptions` list accumulated by `PersistentTaskGroup._wait`: for
each drained task, `await task` either returns (success, nothing appended)
or raises, and `except BaseException` appends the raised exception — a
`CancelledError` included. -/
def collectExcs (l : List Handle) : List Exc :=
  l.filterMap Handle.outcome

/-- `PersistentTaskGroup._wait` (the aggregate `await`): drains every task
through `as_completed` (its internal consumer catches `BaseException`, so it
never raises back into the generator), collects every exception including
cancellations, and raises a `BaseExceptionGroup` exactly when the collected
list is non-empty (`none` = returns normally, `some excs` = raises a group
holding `excs`). -/
def PersistentTaskGroup.waitResult (g : PersistentTaskGroup) : Option (List Exc) :=
  let exceptions := collectExcs g.allTasks
  if exceptions = [] then none else some exceptions

/-- `PersistentTaskGroup.stop`: `self.cancel(msg)` then `await self`; a
raised `BaseExceptionGroup` is split with
`exc_group.split(asyncio.CancelledError)` and only the non-cancellation
remainder `rest` is re-raised (nothing is raised when `rest is None`). -/
def PersistentTaskGroup.stopResult (g : PersistentTaskGroup) : Option (List Exc) :=
  match g.waitResult with
  | none => none
  | some excGroup =>
    let rest := excGroup.filter (fun e => ! e.isCancelled)
    if rest = [] then none else some rest

/-- The two phases of `PersistentTaskGroup.stop(msg)`: first the
cancellation signals sent by `self.cancel(msg)`, then the filtered
await-and-collect outcome. -/
def PersistentTaskGroup.stopRun (g : PersistentTaskGroup) (msg : Option String) :
    List (Handle × Option String) × Option (List Exc) :=
  ((g.cancel msg).2, g.stopResult)

/-- `PersistentTaskGroup.__aexit__`: the async-context-manager exit path
runs `await self.stop()` (no message) and returns `None`. -/
def PersistentTaskGroup.aexitResult (g : PersistentTaskGroup) : Option (List Exc) :=
  g.stopResult

/-- Modelled from the spec (for comparison with the code's exit path, not
translated from the source): section 4.2 "Scoped usage" says that on release
the group performs `cancel` then the full aggregate await, surfacing the
aggregated failure unfiltered — i.e. that exiting the scope is equivalent to
an unfiltered `stop`, with cancellation failures included in the raised
aggregated failure. -/
def scopedExitUnfilteredSpec (g : PersistentTaskGroup) : Option (List Exc) :=
  g.waitResult

/-- `cancel_and_await(task)` from `_util.py`.  Returns (was a cancellation
signal sent, exception propagated to the caller): if the task is already
done it returns at once without cancelling; otherwise it cancels, awaits,
suppresses a resulting `CancelledError` and propagates any other exception
unmodified. -/
def cancel_and_await (t : Handle) : Bool × Option Exc :=
  if t.done then (false, none)
  else
    match t.outcome with
    | some Exc.cancelled => (true, none)
    | some e => (true, some e)
    | none => (true, none)

/-- State of a `ServiceBase` (`_service.py`): dynamic type name, unique id,
the optional main task, and the owned `PersistentTaskGroup`. -/
structure ServiceBase where
  typeName : String
  unique_id : String
  main_task : Option Handle
  task_group : PersistentTaskGroup
deriving DecidableEq

/-- `ServiceBase.__init__`: stores the unique id and builds the owned group
as `PersistentTaskGroup(unique_id=self._unique_id, ...)` — the concrete
class, whose `type(self).__name__` is `"PersistentTaskGroup"`. -/
def ServiceBase.make (typeName uid : String) : ServiceBase :=
  { typeName := typeName
    unique_id := uid
    main_task := none
    task_group :=
      { typeName := "PersistentTaskGroup"
        unique_id := uid
        running := []
        waiting_ack := [] } }

/-- `ServiceBase.__str__`: `f"{type(self).__name__}:{self._unique_id}"`. -/
def ServiceBase.str (s : ServiceBase) : String :=
  s.typeName ++ ":" ++ s.unique_id

/-- The final registered task name produced by `ServiceBase.create_task`:
`if not name: name = hex(id(coro))[2:]`, then it delegates to the owned
group with `name=f"{self}:{name}"`, and the group prepends its own string
form again. -/
def ServiceBase.createTaskName
    (s : ServiceBase) (name : Option String) (coroId : Nat) : String :=
  let n := match name with
    | none => pyHexId coroId
    | some nm => if nm = "" then pyHexId coroId else nm
  s.task_group.createTaskName (some (s.str ++ ":" ++ n)) coroId

/-- One entry of the exception list collected by `ServiceBase._wait`: either
a failure of the main task (any `BaseException`, cancellation included) or
the whole `BaseExceptionGroup` raised by the owned group's aggregate wait,
appended as a single element. -/
inductive WaitEntry where
  | mainFailure (e : Exc)
  | groupFailure (excs : List Exc)
deriving DecidableEq

/-- The entries contributed by the main task in `ServiceBase._wait`:
`await self._main_task` inside `except BaseException`, so any failure of
main — a `CancelledError` included — is appended. -/
def ServiceBase.mainEntries (s : ServiceBase) : List WaitEntry :=
  match s.main_task with
  | none => []
  | some t =>
    match t.outcome with
    | none => []
    | some e => [WaitEntry.mainFailure e]

/-- The full `exceptions` list of `ServiceBase._wait`: the main task is
awaited first, then `await self._task_group` with its `BaseExceptionGroup`
(if raised) appended as one nested entry. -/
def ServiceBase.waitEntries (s : ServiceBase) : List WaitEntry :=
  s.mainEntries ++
    (match s.task_group.waitResult with
     | none => []
     | some excs => [WaitEntry.groupFailure excs])

/-- `ServiceBase._wait`: raises a `BaseExceptionGroup` holding the collected
entries exactly when the list is non-empty. -/
def ServiceBase.waitResult (s : ServiceBase) : Option (List WaitEntry) :=
  if s.waitEntries = [] then none else some s.waitEntries

/-! ### Helper lemmas -/

theorem strAppend_assoc (a b c : String) : (a ++ b) ++ c = a ++ (b ++ c) := by
  apply String.ext
  simp [String.data_append]

theorem drainAck_true (l : List Handle) :
    drainAck (fun _ => true) l = (l, []) := by
  induction l with
  | nil => rfl
  | cons t rest ih => simp [drainAck, ih]

theorem drainAck_fst_subset (cons : Handle → Bool) (l : List Handle) :
    (drainAck cons l).1 ⊆ l := by
  induction l with
  | nil => simp [drainAck]
  | cons t rest ih =>
    by_cases h : cons t = true
    · simp only [drainAck, h, if_true]
      exact List.cons_subset_cons t ih
    · simp only [Bool.not_eq_true] at h
      simp [drainAck, h]

theorem drainAck_snd_subset (cons : Handle → Bool) (l : List Handle) :
    (drainAck cons l).2 ⊆ l := by
  induction l with
  | nil => simp [drainAck]
  | cons t rest ih =>
    by_cases h : cons t = true
    · simp only [drainAck, h, if_true]
      exact fun x hx => List.mem_cons_of_mem _ (ih hx)
    · simp only [Bool.not_eq_true] at h
      simp [drainAck, h, List.Subset.refl]

theorem drainAck_head_mem (cons : Handle → Bool) (t : Handle) (rest : List Handle) :
    t ∈ (drainAck cons (t :: rest)).1 := by
  by_cases h : cons t = true
  · simp [drainAck, h]
  · simp only [Bool.not_eq_true] at h
    simp [drainAck, h]

theorem cancelTasks_mem (msg : Option String) (l : List Handle)
    (t : Handle) (m : Option String) :
    (t, m) ∈ cancelTasks msg l ↔ t ∈ l ∧ m = msg := by
  induction l with
  | nil => simp [cancelTasks]
  | cons u rest ih =>
    simp only [cancelTasks, List.mem_cons, ih, Prod.mk.injEq, List.mem_cons]
    constructor
    · rintro (⟨rfl, rfl⟩ | ⟨hu, rfl⟩)
      · exact ⟨Or.inl rfl, rfl⟩
      · exact ⟨Or.inr hu, rfl⟩
    · rintro ⟨hu | hu, rfl⟩
      · exact Or.inl ⟨hu, rfl⟩
      · exact Or.inr ⟨hu, rfl⟩

/-! ### Concrete instances used by counterexamples and witnesses -/

/-- A completed handle that failed with a non-cancellation error. -/
def hFail : Handle := ⟨0, "t", true, some (Exc.error 1)⟩

/-- A consumer whose handling code raises on every yielded task. -/
def consRaise : Handle → Bool := fun _ => false

/-- C1 as stated is false: with a single finished task in `waiting_ack` and
a consumer that raises while handling it, the drain loop yields the task but
never discards it from `waiting_ack` — no `acked` event occurs and the task
is still in the remaining set, so acknowledgment is not unconditional on
yielding (removal happens after, not before, the consumer's handling code). -/
theorem C1_counterexample :
    Ev.yielded hFail ∈ drainTrace consRaise [hFail] ∧
    Ev.acked hFail ∉ drainTrace consRaise [hFail] ∧
    hFail ∈ (drainAck consRaise [hFail]).2 := by decide

/-- C1 (amended): removal of a yielded handle from `waiting_ack` happens
only after the consumer's handling code for it completes without raising —
in the event trace the `acked` event follows the `consumed` event; if the
consumer raises while handling the yielded handle, the handle is never
discarded, remains in `waiting_ack`, and is yielded again by any later
drain. -/
theorem C1_ack_follows_consumer (cons : Handle → Bool) (l : List Handle)
    (t : Handle) (hnd : l.Nodup) (hy : t ∈ (drainAck cons l).1) :
    (t ∈ (drainAck cons l).2 ↔ cons t = false) ∧
    (cons t = true →
      List.Sublist [Ev.yielded t, Ev.consumed t, Ev.acked t] (drainTrace cons l)) ∧
    (cons t = false →
      Ev.acked t ∉ drainTrace cons l ∧
      ∀ cons₂, t ∈ (drainAck cons₂ (drainAck cons l).2).1) := by
  induction l with
  | nil => simp [drainAck] at hy
  | cons u rest ih =>
    by_cases hc : cons u = true
    · simp only [drainAck, hc, if_true, List.mem_cons] at hy
      rcases hy with rfl | hy
      · refine ⟨?_, ?_, ?_⟩
        · simp only [drainAck, hc, if_true, hc, iff_false, Bool.true_eq_false]
          intro hmem
          exact (List.nodup_cons.mp hnd).1 (drainAck_snd_subset cons rest hmem)
        · intro _
          simp only [drainTrace, hc, if_true]
          exact List.Sublist.cons₂ _ (List.Sublist.cons₂ _ (List.Sublist.cons₂ _
            (List.nil_sublist _)))
        · intro hfalse
          rw [hc] at hfalse
          exact absurd hfalse (by simp)
      · have hnd₂ : rest.Nodup := (List.nodup_cons.mp hnd).2
        obtain ⟨ih1, ih2, ih3⟩ := ih hnd₂ hy
        refine ⟨?_, ?_, ?_⟩
        · simpa only [drainAck, hc, if_true] using ih1
        · intro hct
          simp only [drainTrace, hc, if_true]
          exact ((ih2 hct).cons _).cons _ |>.cons _
        · intro hcf
          obtain ⟨ih3a, ih3b⟩ := ih3 hcf
          refine ⟨?_, ?_⟩
          · simp only [drainTrace, hc, if_true, List.mem_cons, not_or]
            have hne : t ≠ u := by
              rintro rfl
              exact (List.nodup_cons.mp hnd).1 (drainAck_fst_subset cons rest hy)
            exact ⟨by simp [hne], by simp, by simp [hne], ih3a⟩
          · intro cons₂
            simpa only [drainAck, hc, if_true] using ih3b cons₂
    · simp only [Bool.not_eq_true] at hc
      simp only [drainAck, hc, Bool.false_eq_true, if_false, List.mem_singleton] at hy
      subst hy
      refine ⟨?_, ?_, ?_⟩
      · simp [drainAck, hc]
      · intro hct
        rw [hct] at hc
        exact absurd hc (by simp)
      · intro _
        refine ⟨?_, ?_⟩
        · simp [drainTrace, hc]
        · intro cons₂
          simp only [drainAck, hc, Bool.false_eq_true, if_false]
          exact drainAck_head_mem cons₂ t rest

/-- Witness for `C1_ack_follows_consumer` at a concrete input. -/
theorem C1_witness :
    ([hFail].Nodup ∧ hFail ∈ (drainAck consRaise [hFail]).1) ∧
    (hFail ∈ (drainAck consRaise [hFail]).2 ↔ consRaise hFail = false) :=
  ⟨⟨by decide, by decide⟩,
    (C1_ack_follows_consumer consRaise [hFail] hFail (by decide) (by decide)).1⟩

/-- C2: a task that completed with a non-cancellation error is yielded by
`as_completed` exactly once (its drain with a non-raising consumer, as in
`_wait`); after being drained nothing remains in `waiting_ack`, so a later
call of `as_completed` never yields that handle again and a later aggregate
wait over the drained group (plus any new tasks that do not raise that same
error instance) never contains that error; conversely, if the handle is
never drained, both the aggregate `await` and `stop` raise an aggregated
failure containing that error. -/
theorem C2_error_yielded_exactly_once (g : PersistentTaskGroup) (t : Handle)
    (c : Nat) (hq : g.running = []) (hmem : t ∈ g.waiting_ack)
    (hnd : g.waiting_ack.Nodup) (hout : t.outcome = some (Exc.error c)) :
    ((drainAck (fun _ => true) g.waiting_ack).1.count t = 1) ∧
    (∀ cons₂, t ∉ (drainAck cons₂ (drainAck (fun _ => true) g.waiting_ack).2).1) ∧
    (∀ r₂ : List Handle, (∀ u ∈ r₂, u.outcome ≠ some (Exc.error c)) →
      ∀ excs,
        (PersistentTaskGroup.mk g.typeName g.unique_id r₂
          (drainAck (fun _ => true) g.waiting_ack).2).waitResult = some excs →
        Exc.error c ∉ excs) ∧
    (∃ excs, g.waitResult = some excs ∧ Exc.error c ∈ excs) ∧
    (∃ excs, g.stopResult = some excs ∧ Exc.error c ∈ excs) := by
  have hdrain := drainAck_true g.waiting_ack
  have hcmem : Exc.error c ∈ collectExcs g.allTasks := by
    unfold collectExcs PersistentTaskGroup.allTasks
    exact List.mem_filterMap.mpr ⟨t, List.mem_append_left _ hmem, hout⟩
  have hwait : g.waitResult = some (collectExcs g.allTasks) := by
    unfold PersistentTaskGroup.waitResult
    have : collectExcs g.allTasks ≠ [] := List.ne_nil_of_mem hcmem
    simp [this]
  refine ⟨?_, ?_, ?_, ?_, ?_⟩
  · rw [hdrain]
    exact List.count_eq_one_of_mem hnd hmem
  · intro cons₂
    rw [hdrain]
    simp [drainAck]
  · intro r₂ hr₂ excs hw
    unfold PersistentTaskGroup.waitResult at hw
    rw [hdrain] at hw
    by_cases hne : collectExcs (PersistentTaskGroup.allTasks ⟨g.typeName, g.unique_id, r₂, []⟩) = []
    · simp [hne] at hw
    · simp only [hne, if_neg, if_false] at hw
      rw [← Option.some_inj.mp hw]
      intro hin
      unfold collectExcs PersistentTaskGroup.allTasks at hin
      simp only [List.nil_append, List.mem_filterMap] at hin
      obtain ⟨u, hu, huo⟩ := hin
      exact hr₂ u hu huo
  · exact ⟨collectExcs g.allTasks, hwait, hcmem⟩
  · refine ⟨(collectExcs g.allTasks).filter (fun e => ! e.isCancelled), ?_, ?_⟩
    · unfold PersistentTaskGroup.stopResult
      rw [hwait]
      have hmemf : Exc.error c ∈ (collectExcs g.allTasks).filter (fun e => ! e.isCancelled) :=
        List.mem_filter.mpr ⟨hcmem, by simp [Exc.isCancelled]⟩
      have : (collectExcs g.allTasks).filter (fun e => ! e.isCancelled) ≠ [] :=
        List.ne_nil_of_mem hmemf
      simp [this]
    · exact List.mem_filter.mpr ⟨hcmem, by simp [Exc.isCancelled]⟩

/-- A quiescent group holding exactly one finished failed task. -/
def gOneFail : PersistentTaskGroup := ⟨"PersistentTaskGroup", "g", [], [hFail]⟩

/-- Witness for `C2_error_yielded_exactly_once` at a concrete input. -/
theorem C2_witness :
    (gOneFail.running = [] ∧ hFail ∈ gOneFail.waiting_ack ∧
      gOneFail.waiting_ack.Nodup ∧ hFail.outcome = some (Exc.error 1)) ∧
    (drainAck (fun _ => true) gOneFail.waiting_ack).1.count hFail = 1 :=
  ⟨⟨rfl, by decide, by decide, rfl⟩,
    (C2_error_yielded_exactly_once gOneFail hFail 1 rfl (by decide) (by decide) rfl).1⟩

/-- A quiescent group holding exactly one task that ended by cancellation. -/
def gOneCancelled : PersistentTaskGroup :=
  ⟨"PersistentTaskGroup", "g", [], [⟨0, "t", true, some Exc.cancelled⟩]⟩

/-- C3 as stated is false: for a group whose only task ended by
cancellation, exiting the async context (`__aexit__`, which runs
`await self.stop()`) raises nothing, while the unfiltered stop the spec
describes would raise an aggregated failure containing the cancellation —
the exit path is not equivalent to an unfiltered `stop`. -/
theorem C3_counterexample :
    PersistentTaskGroup.aexitResult gOneCancelled ≠
      scopedExitUnfilteredSpec gOneCancelled ∧
    PersistentTaskGroup.aexitResult gOneCancelled = none ∧
    scopedExitUnfilteredSpec gOneCancelled = some [Exc.cancelled] := by decide

/-- C3 (amended): exiting the scope performs `cancel` then the aggregate
await with cancellation-caused failures filtered out of the raised
aggregated failure — it is equivalent to the filtered `stop`, and a raised
aggregated failure never contains a cancellation. -/
theorem C3_aexit_is_filtered_stop (g : PersistentTaskGroup) :
    (g.aexitResult =
      (if (collectExcs g.allTasks).filter (fun e => ! e.isCancelled) = []
       then none
       else some ((collectExcs g.allTasks).filter (fun e => ! e.isCancelled)))) ∧
    (∀ excs, g.aexitResult = some excs → Exc.cancelled ∉ excs) := by
  have hchar : g.aexitResult =
      (if (collectExcs g.allTasks).filter (fun e => ! e.isCancelled) = []
       then none
       else some ((collectExcs g.allTasks).filter (fun e => ! e.isCancelled))) := by
    unfold PersistentTaskGroup.aexitResult PersistentTaskGroup.stopResult
      PersistentTaskGroup.waitResult
    by_cases hc : collectExcs g.allTasks = []
    · simp [hc]
    · simp [hc]
  refine ⟨hchar, ?_⟩
  intro excs hsome hmem
  rw [hchar] at hsome
  by_cases hc : (collectExcs g.allTasks).filter (fun e => ! e.isCancelled) = []
  · simp [hc] at hsome
  · simp only [hc, if_neg, if_false] at hsome
    rw [← Option.some_inj.mp hsome] at hmem
    have := (List.mem_filter.mp hmem).2
    simp [Exc.isCancelled] at this

/-- Witness for `C3_aexit_is_filtered_stop` at a concrete input. -/
theorem C3_witness :
    gOneFail.aexitResult = some [Exc.error 1] ∧ Exc.cancelled ∉ [Exc.error 1] :=
  ⟨by decide, (C3_aexit_is_filtered_stop gOneFail).2 [Exc.error 1] (by decide)⟩

/-- C4: `stop(msg)` first sends the same cancellation signals `cancel(msg)`
sends (exactly one to each running handle), then performs the full
await-and-collect protocol with cancellation-caused failures filtered out of
the raised aggregated failure; when every task terminates by cancellation,
`stop` returns normally without raising. -/
theorem C4_stop_filters_cancellations (g : PersistentTaskGroup)
    (msg : Option String) :
    ((g.stopRun msg).1 = (g.cancel msg).2 ∧
      ∀ t, (t, msg) ∈ (g.stopRun msg).1 ↔ t ∈ g.running) ∧
    (∀ excs, (g.stopRun msg).2 = some excs → ∀ e ∈ excs, e.isCancelled = false) ∧
    ((∀ t ∈ g.allTasks, t.outcome = some Exc.cancelled) →
      (g.stopRun msg).2 = none) := by
  refine ⟨⟨rfl, ?_⟩, ?_, ?_⟩
  · intro t
    unfold PersistentTaskGroup.stopRun PersistentTaskGroup.cancel
    simpa using (cancelTasks_mem msg g.running t msg).trans (by simp)
  · intro excs hsome e hmem
    unfold PersistentTaskGroup.stopRun PersistentTaskGroup.stopResult at hsome
    rcases hwr : g.waitResult with _ | excGroup
    · rw [hwr] at hsome
      simp at hsome
    · rw [hwr] at hsome
      simp only at hsome
      by_cases hc : excGroup.filter (fun e => ! e.isCancelled) = []
      · simp [hc] at hsome
      · simp only [hc, if_neg, if_false] at hsome
        rw [← Option.some_inj.mp hsome] at hmem
        have := (List.mem_filter.mp hmem).2
        simpa using this
  · intro hall
    unfold PersistentTaskGroup.stopRun PersistentTaskGroup.stopResult
      PersistentTaskGroup.waitResult
    by_cases hc : collectExcs g.allTasks = []
    · simp [hc]
    · simp only [hc, if_neg, if_false]
      have hfil : (collectExcs g.allTasks).filter (fun e => ! e.isCancelled) = [] := by
        rw [List.filter_eq_nil_iff]
        intro e hmem
        unfold collectExcs at hmem
        obtain ⟨u, hu, huo⟩ := List.mem_filterMap.mp hmem
        rw [hall u hu] at huo
        rw [← Option.some_inj.mp huo]
        simp [Exc.isCancelled]
      simp [hfil]

/-- Witness for `C4_stop_filters_cancellations` at a concrete input. -/
theorem C4_witness :
    (∀ t ∈ gOneCancelled.allTasks, t.outcome = some Exc.cancelled) ∧
    (gOneCancelled.stopRun none).2 = none :=
  ⟨by decide,
    (C4_stop_filters_cancellations gOneCancelled none).2.2 (by decide)⟩

/-- C7: a group with zero tasks (both `running` and `waiting_ack` empty)
returns without raising from both the aggregate `await` and `stop()`. -/
theorem C7_empty_group_no_raise (g : PersistentTaskGroup)
    (h1 : g.running = []) (h2 : g.waiting_ack = []) :
    g.waitResult = none ∧ g.stopResult = none := by
  have hall : g.allTasks = [] := by
    unfold PersistentTaskGroup.allTasks
    rw [h1, h2]
    rfl
  have hwait : g.waitResult = none := by
    unfold PersistentTaskGroup.waitResult
    rw [hall]
    simp [collectExcs]
  refine ⟨hwait, ?_⟩
  unfold PersistentTaskGroup.stopResult
  rw [hwait]

/-- An empty group. -/
def gEmpty : PersistentTaskGroup := ⟨"PersistentTaskGroup", "g", [], []⟩

/-- Witness for `C7_empty_group_no_raise` at a concrete input. -/
theorem C7_witness : gEmpty.waitResult = none ∧ gEmpty.stopResult = none :=
  C7_empty_group_no_raise gEmpty rfl rfl

/-- C8: `cancel(msg)` sends a cancellation signal to every handle currently
in `running` and to no other handle, every signal carries the given message,
and the group's `running` and `waiting_ack` sets are left untouched (the
operation is a plain non-suspending loop over `running`). -/
theorem C8_cancel_signals_running_only (g : PersistentTaskGroup)
    (msg : Option String) :
    (∀ t, (t, msg) ∈ (g.cancel msg).2 ↔ t ∈ g.running) ∧
    (∀ t m, (t, m) ∈ (g.cancel msg).2 → t ∈ g.running ∧ m = msg) ∧
    ((g.cancel msg).1.waiting_ack = g.waiting_ack ∧
      (g.cancel msg).1.running = g.running) := by
  refine ⟨?_, ?_, rfl, rfl⟩
  · intro t
    unfold PersistentTaskGroup.cancel
    simpa using (cancelTasks_mem msg g.running t msg).trans (by simp)
  · intro t m hmem
    unfold PersistentTaskGroup.cancel at hmem
    exact (cancelTasks_mem msg g.running t m).mp hmem

/-- Witness for `C8_cancel_signals_running_only` at a concrete input. -/
theorem C8_witness :
    ((hFail, some "stop") ∈ ((PersistentTaskGroup.mk "PersistentTaskGroup" "g"
      [hFail] []).cancel (some "stop")).2 ↔
      hFail ∈ (PersistentTaskGroup.mk "PersistentTaskGroup" "g" [hFail] []).running) :=
  (C8_cancel_signals_running_only
    (PersistentTaskGroup.mk "PersistentTaskGroup" "g" [hFail] []) (some "stop")).1 hFail

/-- C5: the service aggregate wait awaits the main task first — any failure
of main, a cancellation included, becomes the first collected entry — then
awaits the owned group's aggregate wait, appending its aggregated failure as
exactly one nested entry, and raises one aggregated failure holding all
collected entries if and only if any exist. -/
theorem C5_service_wait_aggregation (s : ServiceBase) :
    (∀ t e, s.main_task = some t → t.outcome = some e →
      s.waitEntries.head? = some (WaitEntry.mainFailure e)) ∧
    (∀ excs, s.task_group.waitResult = some excs →
      s.waitEntries.count (WaitEntry.groupFailure excs) = 1) ∧
    (s.waitResult = some s.waitEntries ↔ s.waitEntries ≠ []) ∧
    (s.waitResult = none ↔
      (s.mainEntries = [] ∧ s.task_group.waitResult = none)) := by
  refine ⟨?_, ?_, ?_, ?_⟩
  · intro t e hmain hout
    simp [ServiceBase.waitEntries, ServiceBase.mainEntries, hmain, hout]
  · intro excs hgw
    have hz : s.mainEntries.count (WaitEntry.groupFailure excs) = 0 := by
      unfold ServiceBase.mainEntries
      rcases hm : s.main_task with _ | t
      · simp
      · rcases ho : t.outcome with _ | e <;> simp [ho]
    simp [ServiceBase.waitEntries, hgw, List.count_append, hz]
  · unfold ServiceBase.waitResult
    by_cases h : s.waitEntries = []
    · simp [h]
    · simp [h]
  · unfold ServiceBase.waitResult
    have hsplit : s.waitEntries = [] ↔
        (s.mainEntries = [] ∧ s.task_group.waitResult = none) := by
      unfold ServiceBase.waitEntries
      rcases hgw : s.task_group.waitResult with _ | excs
      · simp
      · simp
    by_cases h : s.waitEntries = []
    · simp [h, hsplit.mp h]
    · simp only [h, if_neg, if_false]
      constructor
      · intro hc
        exact absurd hc (by simp)
      · intro hc
        exact absurd (hsplit.mpr hc) h

/-- A service whose main task was cancelled and whose group holds one
failed task. -/
def svcSample : ServiceBase :=
  ⟨"MyService", "u1", some ⟨1, "main", true, some Exc.cancelled⟩, gOneFail⟩

/-- Witness for `C5_service_wait_aggregation` at a concrete input. -/
theorem C5_witness :
    svcSample.waitEntries.head? =
      some (WaitEntry.mainFailure Exc.cancelled) ∧
    svcSample.waitEntries.count (WaitEntry.groupFailure [Exc.error 1]) = 1 :=
  ⟨(C5_service_wait_aggregation svcSample).1 _ _ rfl rfl,
    (C5_service_wait_aggregation svcSample).2.1 [Exc.error 1] (by decide)⟩

/-- C6: `cancel_and_await` on an already-completed handle returns at once
without raising and without sending a cancellation signal; on a
not-yet-completed handle it sends the signal and, once the handle completes,
suppresses a resulting cancellation (returning normally) while any other
failure propagates to the caller unmodified. -/
theorem C6_cancel_and_await_contract (t : Handle) :
    (t.done = true → cancel_and_await t = (false, none)) ∧
    (t.done = false →
      (cancel_and_await t).1 = true ∧
      (t.outcome = some Exc.cancelled → (cancel_and_await t).2 = none) ∧
      (∀ e, t.outcome = some e → e ≠ Exc.cancelled →
        (cancel_and_await t).2 = some e) ∧
      (t.outcome = none → (cancel_and_await t).2 = none)) := by
  refine ⟨?_, ?_⟩
  · intro hdone
    unfold cancel_and_await
    simp [hdone]
  · intro hdone
    refine ⟨?_, ?_, ?_, ?_⟩
    · unfold cancel_and_await
      rcases ho : t.outcome with _ | e
      · simp [hdone, ho]
      · rcases e <;> simp [hdone, ho]
    · intro ho
      unfold cancel_and_await
      simp [hdone, ho]
    · intro e ho hne
      unfold cancel_and_await
      rcases e with _ | c
      · exact absurd rfl hne
      · simp [hdone, ho]
    · intro ho
      unfold cancel_and_await
      simp [hdone, ho]

/-- Witness for `C6_cancel_and_await_contract` at a concrete input. -/
theorem C6_witness :
    hFail.done = true ∧ cancel_and_await hFail = (false, none) :=
  ⟨rfl, (C6_cancel_and_await_contract hFail).1 rfl⟩

/-- C9: a task created with name `"sleep_1"` in a group with unique id
`"test"` is registered with the task creator under the qualified name
`"PersistentTaskGroup:test:sleep_1"` (the group's type name, unique id and
task name joined by colons); with an absent (`None`) or empty name the
generated fallback identifier `hex(id(coro))[2:]` is used in place of the
name. -/
theorem C9_group_task_naming (g : PersistentTaskGroup) (coroId : Nat)
    (hg : g.unique_id = "test") (ht : g.typeName = "PersistentTaskGroup") :
    g.createTaskName (some "sleep_1") coroId = "PersistentTaskGroup:test:sleep_1" ∧
    g.createTaskName none coroId = g.str ++ ":" ++ pyHexId coroId ∧
    g.createTaskName (some "") coroId = g.str ++ ":" ++ pyHexId coroId := by
  refine ⟨?_, rfl, ?_⟩
  · simp only [PersistentTaskGroup.createTaskName, PersistentTaskGroup.str, hg, ht]
    rw [if_neg (by decide : ¬("sleep_1" = ""))]
    decide
  · simp [PersistentTaskGroup.createTaskName]

/-- A group with unique id `"test"`. -/
def gTest : PersistentTaskGroup := ⟨"PersistentTaskGroup", "test", [], []⟩

/-- Witness for `C9_group_task_naming` at a concrete input. -/
theorem C9_witness :
    gTest.createTaskName (some "sleep_1") 0 = "PersistentTaskGroup:test:sleep_1" :=
  (C9_group_task_naming gTest 0 rfl rfl).1

/-- C10: a task created through `ServiceBase.create_task` with a non-empty
name `n` on a service with unique id `u` is registered under a name carrying
the qualification prefix twice — the service prepends its own string form
and the owned group then prepends its string form again — yielding
`"PersistentTaskGroup:u:<ServiceTypeName>:u:n"`. -/
theorem C10_service_name_doubly_qualified (svcType u n : String) (cid : Nat)
    (hn : n ≠ "") :
    (ServiceBase.make svcType u).createTaskName (some n) cid =
      "PersistentTaskGroup" ++ ":" ++ u ++ ":" ++ svcType ++ ":" ++ u ++ ":" ++ n := by
  have hinner : (svcType ++ ":" ++ u) ++ ":" ++ n ≠ "" := by
    intro hc
    have := congrArg String.data hc
    simp [String.data_append] at this
  simp only [ServiceBase.createTaskName, ServiceBase.make, ServiceBase.str,
    PersistentTaskGroup.createTaskName, PersistentTaskGroup.str]
  rw [if_neg hn, if_neg hinner]
  apply String.ext
  simp [String.data_append]

/-- Witness for `C10_service_name_doubly_qualified` at a concrete input. -/
theorem C10_witness :
    ("work" ≠ "") ∧
    (ServiceBase.make "MyService" "u1").createTaskName (some "work") 0 =
      "PersistentTaskGroup" ++ ":" ++ "u1" ++ ":" ++ "MyService" ++ ":" ++ "u1" ++ ":" ++ "work" :=
  ⟨by decide, C10_service_name_doubly_qualified "MyService" "u1" "work" 0 (by decide)⟩

end FrequenzCore
